import Mathlib

/-!
Shallow embedding of the AI_DJ ingestion-then-vectorization core:
the ingestion pipeline (src/data/ingest_mtg.py), the vectorization worker
(src/data/vector_worker.py) and the catalog model (src/backend/models.py).
External effects (HTTP downloads, S3 uploads, database queries/commits) are
modelled as deterministic oracles supplied as function-valued parameters;
the local scratch directory and the temp-file area are association lists.
-/

namespace AIDJ

/-! ### Python string helpers (for `in`, `split(sep)[-1]`, `startswith`) -/

/-- `isPrefixL sep s` : `sep` is a (character-wise) prefix of `s`. -/
def isPrefixL : List Char → List Char → Bool
  | [], _ => true
  | _ :: _, [] => false
  | a :: as, b :: bs => a == b && isPrefixL as bs

/-- Suffix strictly after the first (leftmost) occurrence of `sep` in `s`,
`none` when `sep` does not occur.  `sep in s` in Python is `isSome` of this. -/
def afterFirst (sep : List Char) : List Char → Option (List Char)
  | [] => if sep.isEmpty then some [] else none
  | c :: rest =>
    if isPrefixL sep (c :: rest) then some (List.drop sep.length (c :: rest))
    else afterFirst sep rest

/-- Whether `sep` matches at character position `p` of `s`. -/
def occursAt (sep s : List Char) (p : Nat) : Bool :=
  isPrefixL sep (List.drop p s)

/-- Fuelled left-to-right scan mirroring Python `s.split(sep)[-1]`
(non-overlapping, leftmost-first consumption of separators). -/
def splitLastAux (sep : List Char) : Nat → List Char → List Char
  | 0, s => s
  | fuel + 1, s =>
    match afterFirst sep s with
    | none => s
    | some r => splitLastAux sep fuel r

/-- Python `s.split(sep)[-1]`. -/
def splitLast (sep s : List Char) : List Char :=
  splitLastAux sep (s.length + 1) s

/-- Python `s.startswith(pre)`. -/
def pyStartsWith (s pre : String) : Bool :=
  isPrefixL pre.data s.data

/-- Python truthiness of an optional environment string (`None` and `""` are falsy). -/
def truthy : Option String → Bool
  | none => false
  | some s => s != ""

/-- Python `str()` interpolation of an optional value (f-strings render `None`). -/
def pyStr : Option String → String
  | none => "None"
  | some s => s

/-! ### Local filesystem model (scratch directory / temp files) -/

/-- A local file system: association list from path to file content. -/
abbrev FS := List (String × String)

/-- Content of the file at `p`, if it exists. -/
def fsGet (fs : FS) (p : String) : Option String :=
  (fs.find? (fun e => e.1 == p)).map (fun e => e.2)

/-- Write (create or truncate) the file at `p` with content `c`. -/
def fsSet (fs : FS) (p c : String) : FS :=
  (p, c) :: fs.filter (fun e => e.1 != p)

/-- Delete the file at `p` (`Path.unlink` / `os.remove`). -/
def fsDel (fs : FS) (p : String) : FS :=
  fs.filter (fun e => e.1 != p)

/-! ### Catalog model (src/backend/models.py, class Track) -/

/-- One row of the `tracks` table.  Embedding vectors are opaque reals in the
source; their numeric content is irrelevant to every claim, so elements are
modelled as `Int`.  The `embedding` column is declared `Vector(512)`. -/
structure Entry where
  id : String
  title : String
  artist : String
  tags : List (String × String) := []
  audio_url : String
  embedding : Option (List Int) := none
  semantic_id : Option String := none
deriving Repr, DecidableEq

/-- The catalog store: the `tracks` table in insertion order. -/
abbrev DB := List Entry

/-- `SELECT ... WHERE id = :id LIMIT 1` used by the dedup check. -/
def dbFind (db : DB) (id : String) : Option Entry :=
  db.find? (fun t => t.id == id)

/-- Whether the table holds a row with this id. -/
def dbHas (db : DB) (id : String) : Bool :=
  db.any (fun t => t.id == id)

/-- `session.add(new_track); session.commit()`: the commit fails (and is rolled
back, leaving the table unchanged) on a transient error or when the primary-key
constraint on `id` is violated; otherwise the row is appended. -/
def dbInsert (db : DB) (e : Entry) (transientFail : Bool) : DB :=
  if transientFail || dbHas db e.id then db else db ++ [e]

/-! ### Environment configuration (module-level os.getenv reads) -/

/-- The environment variables read at module load. `dbAvailable` is the
truthiness of `DATABASE_URL` (a session object is returned iff it is set). -/
structure Config where
  s3AccessKey : Option String
  s3SecretKey : Option String
  s3Endpoint : Option String
  s3Bucket : Option String
  dbAvailable : Bool

/-- `all([S3_ACCESS_KEY_ID, S3_SECRET_ACCESS_KEY, S3_BUCKET_NAME])`
(the endpoint is NOT part of this check in the source). -/
def hasCreds (c : Config) : Bool :=
  truthy c.s3AccessKey && truthy c.s3SecretKey && truthy c.s3Bucket

/-- The durable reference returned by `upload_to_s3`:
`f"{S3_ENDPOINT_URL}/{S3_BUCKET_NAME}/{s3_key}"`. -/
def uploadRef (c : Config) (key : String) : String :=
  pyStr c.s3Endpoint ++ "/" ++ pyStr c.s3Bucket ++ "/" ++ key

/-! ### External-world oracles for the ingestion pipeline -/

/-- Outcome of one HTTP download attempt: success with the streamed bytes,
failure after the destination file was opened and partially written, or
failure before the destination file was created. -/
inductive DAttempt
  | ok (content : String)
  | failWrite (part : String)
  | failEarly
deriving Repr, DecidableEq

/-- Deterministic model of the external world seen by one ingestion run. -/
structure World where
  /-- `requests.get` behaviour per (url, 0-based attempt index). -/
  attempt : String → Nat → DAttempt
  /-- Whether `s3_client.upload_file` succeeds for a given key. -/
  uploadOk : String → Bool
  /-- Whether the dedup query (`query(Track).filter_by(id=...)`) raises. -/
  dbCheckFails : String → Bool
  /-- Whether the catalog insert commit fails transiently for a given id. -/
  insertFails : String → Bool

/-! ### Transfer layer: download_file (src/data/ingest_mtg.py lines 68-81) -/

/-- Result of `download_file`: success flag, resulting local filesystem,
number of attempts made, and the `time.sleep` backoffs performed (seconds). -/
structure DlResult where
  ok : Bool
  fs : FS
  attempts : Nat
  sleeps : List Nat
deriving Repr

/-- The retry loop of `download_file`: attempt index `i`, `rem` attempts left.
A successful attempt writes the full content; a failed attempt that reached the
file write leaves a partial file; every failed attempt sleeps `2 * (i + 1)`. -/
def dlLoop (w : World) (url path : String) : Nat → Nat → FS → DlResult
  | _, 0, fs => ⟨false, fs, 0, []⟩
  | i, rem + 1, fs =>
    match w.attempt url i with
    | .ok c => ⟨true, fsSet fs path c, 1, []⟩
    | .failWrite p =>
      let r := dlLoop w url path (i + 1) rem (fsSet fs path p)
      ⟨r.ok, r.fs, r.attempts + 1, 2 * (i + 1) :: r.sleeps⟩
    | .failEarly =>
      let r := dlLoop w url path (i + 1) rem fs
      ⟨r.ok, r.fs, r.attempts + 1, 2 * (i + 1) :: r.sleeps⟩

/-- `download_file(url, local_path, retries=3)`. -/
def downloadFile (w : World) (url path : String) (retries : Nat) (fs : FS) : DlResult :=
  dlLoop w url path 0 retries fs

/-! ### Ingestion pipeline: process_dataset (src/data/ingest_mtg.py lines 99-208) -/

/-- One parsed dataset row.  String fields hold `""` when the column is absent
or falsy (`row.get(..., '')` chains); `trackId` is the `str()` of the
TRACK_ID/track_id/id chain. -/
structure Row where
  trackId : String
  path : String
  audioUrlCol : String
  mp3UrlCol : String
  artistId : String := "Unknown"
deriving Repr, DecidableEq

/-- Base URL prefix used to reconstruct an audio URL from a relative path. -/
def cdnBase : String := "https://cdn.freesound.org/mtg-jamendo/raw_30s/audio/"

/-- URL normalization (lines 131-140): prefer PATH, fall back to
audio_url then mp3_url; prefix the CDN base unless it already starts with
`http`. -/
def resolveUrl (r : Row) : String :=
  let rel := if r.path != "" then r.path
             else if r.audioUrlCol != "" then r.audioUrlCol
             else r.mp3UrlCol
  if rel != "" && !(pyStartsWith rel "http") then cdnBase ++ rel else rel

/-- Line 142: `if not track_id or not audio_url: continue`. -/
def guardSkip (r : Row) : Bool :=
  r.trackId == "" || resolveUrl r == ""

/-- Lines 149-160: skip the row when a DB session exists, the dedup query did
not raise, and a row with this id is already present.  A raising query is
tolerated (rollback, fall through). -/
def dupSkip (c : Config) (w : World) (db : DB) (r : Row) : Bool :=
  c.dbAvailable && !(w.dbCheckFails r.trackId) && dbHas db r.trackId

/-- `local_file_path = Path(output_dir) / f"{track_id}.mp3"`. -/
def localPathOf (dir : String) (r : Row) : String :=
  dir ++ "/" ++ r.trackId ++ ".mp3"

/-- `s3_key = f"tracks/{track_id}.mp3"`. -/
def s3KeyOf (r : Row) : String :=
  "tracks/" ++ r.trackId ++ ".mp3"

/-- Persistent cross-run state: local scratch directory and catalog table. -/
structure Store where
  fs : FS
  db : DB
deriving Repr, DecidableEq

/-- Per-run state: the store, `processed_count`, and ledgers of the external
actions taken by the run (download attempts, upload attempts with the bytes
sent, and backoff sleeps). -/
structure RunState where
  store : Store
  count : Nat
  downloads : List String
  uploads : List (String × String)
  sleeps : List Nat
deriving Repr, DecidableEq

/-- Steps 2-4 of a row once a local file exists at its scratch path
(lines 175-206): with credentials, upload the file's bytes, insert the catalog
row when upload and session allow it, then unconditionally delete the local
file and count the row; without credentials, keep the file and count the row. -/
def afterDownload (c : Config) (w : World) (dir : String) (r : Row) (s : RunState) : RunState :=
  let path := localPathOf dir r
  let content := (fsGet s.store.fs path).getD ""
  if hasCreds c then
    let key := s3KeyOf r
    let db' :=
      if w.uploadOk key && c.dbAvailable then
        dbInsert s.store.db
          { id := r.trackId, title := "Track " ++ r.trackId, artist := r.artistId,
            tags := [], audio_url := uploadRef c key }
          (w.insertFails r.trackId)
      else s.store.db
    { store := { fs := fsDel s.store.fs path, db := db' },
      count := s.count + 1,
      downloads := s.downloads,
      uploads := s.uploads ++ [(key, content)],
      sleeps := s.sleeps }
  else
    { s with count := s.count + 1 }

/-- The body of the `for index, row in df.iterrows()` loop for one row
(lines 129-206). -/
def processRow (c : Config) (w : World) (dir : String) (s : RunState) (r : Row) : RunState :=
  if guardSkip r then s
  else if dupSkip c w s.store.db r then s
  else
    match fsGet s.store.fs (localPathOf dir r) with
    | some _ => afterDownload c w dir r s
    | none =>
      let d := downloadFile w (resolveUrl r) (localPathOf dir r) 3 s.store.fs
      let s' : RunState :=
        { s with store := { s.store with fs := d.fs },
                 downloads := s.downloads ++ [resolveUrl r],
                 sleeps := s.sleeps ++ d.sleeps }
      if d.ok then afterDownload c w dir r s' else s'

/-- Line 126: `if limit and processed_count >= limit: break`
(`limit = None` and `limit = 0` are both falsy). -/
def limitHit : Option Nat → Nat → Bool
  | none, _ => false
  | some n, cnt => n != 0 && decide (n ≤ cnt)

/-- The row loop with the limit check at the top of each iteration. -/
def processRows (c : Config) (w : World) (dir : String) (limit : Option Nat) :
    List Row → RunState → RunState
  | [], s => s
  | r :: rest, s =>
    if limitHit limit s.count then s
    else processRows c w dir limit rest (processRow c w dir s r)

/-- `process_dataset(tsv_path, output_dir, limit)` applied to an
already-parsed dataset, starting from a persistent store. -/
def processDataset (c : Config) (w : World) (dir : String) (limit : Option Nat)
    (rows : List Row) (st : Store) : RunState :=
  processRows c w dir limit rows
    { store := st, count := 0, downloads := [], uploads := [], sleeps := [] }

/-! ### Vectorization worker (src/data/vector_worker.py) -/

/-- External-world oracles seen by the worker. -/
structure WWorld where
  /-- `requests.get` behaviour per download URL (one attempt, no retry). -/
  dl : String → DAttempt
  /-- The CLAP embedding of given audio bytes (`None` when inference raises). -/
  embed : String → Option (List Int)
  /-- Whether the `session.commit()` persisting an embedding fails transiently. -/
  commitFails : String → Bool
  /-- Whether `generate_presigned_url` raises for a given key. -/
  presignFails : String → Bool
  /-- The presigned URL minted for a given key. -/
  presign : String → String

/-- Key extraction of `get_presigned_url` (lines 54-68): split on
`f"/{S3_BUCKET_NAME}/"` when present, else on `"tracks/"` (keeping the
prefix), else no key (`none` = unparseable, use the raw reference). -/
def parseKey (bucket url : String) : Option String :=
  if (afterFirst ("/" ++ bucket ++ "/").data url.data).isSome then
    some (String.mk (splitLast ("/" ++ bucket ++ "/").data url.data))
  else if (afterFirst "tracks/".data url.data).isSome then
    some ("tracks/" ++ String.mk (splitLast "tracks/".data url.data))
  else none

/-- `get_presigned_url(s3_client, public_url)` (lines 47-78): `None` for a
falsy reference; the raw reference when the key cannot be parsed or when
presigning raises; otherwise the minted presigned URL. -/
def getPresignedUrl (bucket : String) (ww : WWorld) (publicUrl : String) : Option String :=
  if publicUrl == "" then none
  else
    match parseKey bucket publicUrl with
    | some key => if ww.presignFails key then some publicUrl else some (ww.presign key)
    | none => some publicUrl

/-- Worker state: the catalog table, the temp-file area, and the iteration
counter (used to give each `NamedTemporaryFile` a fresh name). -/
structure WState where
  db : DB
  tmp : FS
  iter : Nat
deriving Repr, DecidableEq

/-- Fresh temp-file name for iteration `n` (`NamedTemporaryFile(suffix=".mp3")`). -/
def tmpName (n : Nat) : String :=
  "/tmp/clap" ++ toString n ++ ".mp3"

/-- `download_audio(url)` (lines 92-105): streams to a fresh temp file and
returns its path; an exception after the temp file was opened leaves the
partial file behind and returns `None`; an exception before (including a
`None` url) creates nothing. -/
def downloadAudio (ww : WWorld) (url : Option String) (name : String) (tmp : FS) :
    Option String × FS :=
  match url with
  | none => (none, tmp)
  | some u =>
    match ww.dl u with
    | .ok c => (some name, fsSet tmp name c)
    | .failWrite p => (none, fsSet tmp name p)
    | .failEarly => (none, tmp)

/-- `UPDATE tracks SET embedding = v WHERE id = id` as applied through the ORM
object. -/
def dbSetEmbedding (db : DB) (id : String) (v : List Int) : DB :=
  db.map (fun t => if t.id == id then { t with embedding := some v } else t)

/-- `track.embedding = embedding; session.commit()` (lines 178-184): the
`tracks.embedding` column is declared `Vector(512)` (src/backend/models.py
line 18), so a commit writing a vector of any other length raises and is
rolled back; a transient commit failure is likewise rolled back. -/
def commitEmbedding (ww : WWorld) (db : DB) (id : String) (v : List Int) : DB :=
  if v.length == 512 && !(ww.commitFails id) then dbSetEmbedding db id v else db

/-- One iteration of the `while True` loop of `process_queue`
(lines 144-194): pick one pending row, presign, download, embed, delete the
temp file, and commit the vector when one was produced.  Every failure path
falls through to the next iteration (sleep/cooldown have no modelled state). -/
def workerStep (bucket : String) (ww : WWorld) (s : WState) : WState :=
  match s.db.find? (fun t => t.embedding.isNone) with
  | none => { s with iter := s.iter + 1 }
  | some track =>
    let url := getPresignedUrl bucket ww track.audio_url
    let name := tmpName s.iter
    match downloadAudio ww url name s.tmp with
    | (none, tmp') => { s with tmp := tmp', iter := s.iter + 1 }
    | (some p, tmp') =>
      let content := (fsGet tmp' p).getD ""
      let emb := ww.embed content
      let tmp'' := fsDel tmp' p
      match emb with
      | some v =>
        if v != [] then
          { db := commitEmbedding ww s.db track.id v, tmp := tmp'', iter := s.iter + 1 }
        else { s with tmp := tmp'', iter := s.iter + 1 }
      | none => { s with tmp := tmp'', iter := s.iter + 1 }

/-- How `process_queue` can end before entering its loop. -/
inductive BootOutcome
  | exitModelLoadFailure
  | exitNoDb
  | started
deriving Repr, DecidableEq

/-- Startup of the worker process (lines 80-90 and 133-141): `load_model`
calls `sys.exit(1)` when the model cannot load; then `process_queue` calls
`sys.exit(1)` when `get_db_session()` returns `None`; otherwise the loop
starts. -/
def workerBoot (modelLoads : Bool) (dbAvailable : Bool) : BootOutcome :=
  if !modelLoads then .exitModelLoadFailure
  else if !dbAvailable then .exitNoDb
  else .started

/-- Whether a row advances the `processed_count`: it passed the field guard,
was not dedup-skipped, and a local file existed or the download succeeded. -/
def rowAdvances (c : Config) (w : World) (dir : String) (s : RunState) (r : Row) : Bool :=
  !guardSkip r && !dupSkip c w s.store.db r &&
    ((fsGet s.store.fs (localPathOf dir r)).isSome
      || (downloadFile w (resolveUrl r) (localPathOf dir r) 3 s.store.fs).ok)

/-- Every persisted embedding vector in the table has length 512. -/
def embDimOk (db : DB) : Prop :=
  ∀ t ∈ db, ∀ v, t.embedding = some v → v.length = 512

/-! ### Concrete fixtures used by counterexamples and witnesses -/

/-- Fully configured environment. -/
def cfgFull : Config :=
  { s3AccessKey := some "k", s3SecretKey := some "s", s3Endpoint := some "http://e",
    s3Bucket := some "b", dbAvailable := true }

/-- No S3 credentials, database reachable. -/
def cfgNoCreds : Config :=
  { s3AccessKey := none, s3SecretKey := none, s3Endpoint := none,
    s3Bucket := none, dbAvailable := true }

/-- World in which every external operation succeeds and every download
streams the bytes `"bytes"`. -/
def wOK : World :=
  { attempt := fun _ _ => .ok "bytes", uploadOk := fun _ => true,
    dbCheckFails := fun _ => false, insertFails := fun _ => false }

/-- World in which every download attempt fails after a partial write. -/
def wPart : World :=
  { attempt := fun _ _ => .failWrite "partial", uploadOk := fun _ => true,
    dbCheckFails := fun _ => false, insertFails := fun _ => false }

/-- World in which downloads succeed but every S3 upload fails. -/
def wUpFail : World :=
  { attempt := fun _ _ => .ok "bytes", uploadOk := fun _ => false,
    dbCheckFails := fun _ => false, insertFails := fun _ => false }

/-- World in which every download attempt fails before the file is opened. -/
def wAllFail : World :=
  { attempt := fun _ _ => .failEarly, uploadOk := fun _ => true,
    dbCheckFails := fun _ => false, insertFails := fun _ => false }

/-- World whose downloads stream `"fresh"` bytes. -/
def wFresh : World :=
  { attempt := fun _ _ => .ok "fresh", uploadOk := fun _ => true,
    dbCheckFails := fun _ => false, insertFails := fun _ => false }

/-- A well-formed dataset row with identifier `i`. -/
def rowA (i : String) : Row :=
  { trackId := i, path := "a/" ++ i ++ ".mp3", audioUrlCol := "", mp3UrlCol := "" }

/-- A row with an identifier but no path and no URL columns. -/
def rowNoUrl : Row :=
  { trackId := "t1", path := "", audioUrlCol := "", mp3UrlCol := "" }

/-- Empty persistent store. -/
def st0 : Store := { fs := [], db := [] }

/-- Worker world in which everything succeeds and the model emits a
512-dimensional vector of zeros. -/
def wwOK : WWorld :=
  { dl := fun _ => .ok "audio", embed := fun _ => some (List.replicate 512 0),
    commitFails := fun _ => false, presignFails := fun _ => false,
    presign := fun k => "signed:" ++ k }

/-! ### Helper lemmas -/

theorem fsGet_fsDel (fs : FS) (p : String) : fsGet (fsDel fs p) p = none := by
  induction fs with
  | nil => rfl
  | cons e t ih =>
    show fsGet (List.filter (fun x => x.1 != p) (e :: t)) p = none
    rw [List.filter_cons]
    by_cases h : (e.1 == p) = true
    · rw [show (e.1 != p) = false from by rw [bne]; rw [h]; rfl]
      exact ih
    · rw [show (e.1 != p) = true from by rw [bne]; rw [Bool.eq_false_iff.mpr h]; rfl]
      show fsGet (e :: List.filter (fun x => x.1 != p) t) p = none
      unfold fsGet
      have hb : (e.1 == p) = false := Bool.eq_false_iff.mpr h
      simp only [List.find?_cons, hb]
      exact ih

theorem afterDownload_count (c : Config) (w : World) (dir : String) (r : Row) (s : RunState) :
    (afterDownload c w dir r s).count = s.count + 1 := by
  unfold afterDownload
  split <;> rfl

theorem afterDownload_downloads (c : Config) (w : World) (dir : String) (r : Row) (s : RunState) :
    (afterDownload c w dir r s).downloads = s.downloads := by
  unfold afterDownload
  split <;> rfl

theorem dlLoop_all_fail (w : World) (url path : String) :
    ∀ (rem i : Nat) (fs : FS),
      (∀ j, j < rem → ∀ ct, w.attempt url (i + j) ≠ .ok ct) →
      (dlLoop w url path i rem fs).ok = false ∧
      (dlLoop w url path i rem fs).attempts = rem ∧
      (dlLoop w url path i rem fs).sleeps
        = (List.range rem).map (fun j => 2 * (i + j + 1)) := by
  intro rem
  induction rem with
  | zero => intro i fs _; exact ⟨rfl, rfl, rfl⟩
  | succ n ih =>
    intro i fs h
    have hshift : ∀ j, j < n → ∀ ct, w.attempt url (i + 1 + j) ≠ .ok ct := by
      intro j hj ct
      have := h (j + 1) (by omega) ct
      rwa [show i + (j + 1) = i + 1 + j from by omega] at this
    have hrange : (List.range (n + 1)).map (fun j => 2 * (i + j + 1))
        = 2 * (i + 1) :: (List.range n).map (fun j => 2 * (i + 1 + j + 1)) := by
      rw [List.range_succ_eq_map, List.map_cons, List.map_map]
      have : ((fun j => 2 * (i + j + 1)) ∘ Nat.succ) = (fun j => 2 * (i + 1 + j + 1)) := by
        funext j
        simp [Function.comp]
        omega
      rw [this]
    cases ha : w.attempt url i with
    | ok ct =>
      exact absurd (by simpa using ha) (h 0 (by omega) ct)
    | failWrite part =>
      have := ih (i + 1) (fsSet fs path part) hshift
      refine ⟨?_, ?_, ?_⟩
      · simp only [dlLoop, ha]
        exact this.1
      · simp only [dlLoop, ha, this.2.1]
      · simp only [dlLoop, ha, this.2.2, hrange]
    | failEarly =>
      have := ih (i + 1) fs hshift
      refine ⟨?_, ?_, ?_⟩
      · simp only [dlLoop, ha]
        exact this.1
      · simp only [dlLoop, ha, this.2.1]
      · simp only [dlLoop, ha, this.2.2, hrange]

/-! ### Claim theorems -/

/-- C4: when every attempt fails, `download_file` returns failure, makes
exactly `max_attempts` attempts, the backoff before attempt `k+1` (the sleep
after failed attempt `k`, 1-based) is `2 * k` seconds, and the result is
failure even though a failed attempt may have left a partial write. -/
theorem c4_retry_exhaustion (w : World) (url path : String) (fs : FS) (n : Nat)
    (h : ∀ i, i < n → ∀ ct, w.attempt url i ≠ .ok ct) :
    (downloadFile w url path n fs).ok = false ∧
    (downloadFile w url path n fs).attempts = n ∧
    (downloadFile w url path n fs).sleeps = (List.range n).map (fun k => 2 * (k + 1)) := by
  have := dlLoop_all_fail w url path n 0 fs (by
    intro j hj ct
    have := h j hj ct
    rwa [show (0 : Nat) + j = j from by omega])
  refine ⟨this.1, this.2.1, ?_⟩
  show (dlLoop w url path 0 n fs).sleeps = _
  rw [this.2.2]
  have : (fun j => 2 * (0 + j + 1)) = (fun k => 2 * (k + 1)) := by
    funext j
    omega
  rw [this]

/-- Witness for C4 at `max_attempts = 3` with a world whose download attempts
always fail: exactly 3 attempts, backoffs 2, 4, 6 seconds, and failure. -/
theorem c4_retry_exhaustion_witness :
    (downloadFile wAllFail "http://u" "/t/f.mp3" 3 []).ok = false ∧
    (downloadFile wAllFail "http://u" "/t/f.mp3" 3 []).attempts = 3 ∧
    (downloadFile wAllFail "http://u" "/t/f.mp3" 3 []).sleeps = [2, 4, 6] := by
  have := c4_retry_exhaustion wAllFail "http://u" "/t/f.mp3" [] 3
    (by intro i _ ct hc; exact DAttempt.noConfusion hc)
  exact ⟨this.1, this.2.1, by rw [this.2.2]; rfl⟩

/-- C8 counterexample: with the model loading fine but `DATABASE_URL` unset,
`process_queue` still terminates the worker process (`sys.exit(1)` at line
140), so model-load failure is not the only self-termination condition. -/
theorem c8_counterexample : workerBoot true false ≠ BootOutcome.started := by
  decide

/-- C8 amended: the worker terminates on its own exactly when the embedding
model fails to load or no database session can be obtained; and no single
entry's failure terminates the loop — every iteration, whatever its per-entry
outcome, hands control to the following iteration. -/
theorem c8_boot_conditions :
    (∀ m d, workerBoot m d = BootOutcome.started ↔ m = true ∧ d = true) ∧
    (∀ b ww s, (workerStep b ww s).iter = s.iter + 1) := by
  constructor
  · decide
  · intro b ww s
    unfold workerStep
    cases hf : s.db.find? (fun t => t.embedding.isNone) with
    | none => rfl
    | some track =>
      rcases hda : downloadAudio ww (getPresignedUrl b ww track.audio_url) (tmpName s.iter) s.tmp
        with ⟨op, tmp2⟩
      simp only [hda]
      cases op with
      | none => rfl
      | some p =>
        cases he : ww.embed ((fsGet tmp2 p).getD "") with
        | none =>
          simp only [he]
        | some v =>
          simp only [he]
          split <;> rfl

theorem processRow_count (c : Config) (w : World) (dir : String) (s : RunState) (r : Row) :
    (processRow c w dir s r).count
      = if rowAdvances c w dir s r then s.count + 1 else s.count := by
  by_cases hg : guardSkip r = true
  · simp [processRow, rowAdvances, hg]
  · have hg' : guardSkip r = false := Bool.eq_false_iff.mpr hg
    by_cases hd : dupSkip c w s.store.db r = true
    · simp [processRow, rowAdvances, hg', hd]
    · have hd' : dupSkip c w s.store.db r = false := Bool.eq_false_iff.mpr hd
      cases hf : fsGet s.store.fs (localPathOf dir r) with
      | some content =>
        simp [processRow, rowAdvances, hg', hd', hf, afterDownload_count]
      | none =>
        cases hdo : (downloadFile w (resolveUrl r) (localPathOf dir r) 3 s.store.fs).ok with
        | true => simp [processRow, rowAdvances, hg', hd', hf, hdo, afterDownload_count]
        | false => simp [processRow, rowAdvances, hg', hd', hf, hdo]

/-- C10: `limit = 0` disables the limit — the run is identical to an
unlimited run — and `processed_count` advances exactly for the rows that
passed the field guard, were not dedup-skipped, and had a pre-existing local
file or a successful download; it is independent of upload outcome, of
credentials being present, and of whether a CatalogEntry was produced. -/
theorem c10_limit_and_counter :
    (∀ c w dir rows st,
       processDataset c w dir (some 0) rows st = processDataset c w dir none rows st) ∧
    (∀ c w dir s r,
       (processRow c w dir s r).count
         = if rowAdvances c w dir s r then s.count + 1 else s.count) := by
  constructor
  · intro c w dir rows st
    unfold processDataset
    generalize ({ store := st, count := 0, downloads := [], uploads := [],
                  sleeps := [] } : RunState) = s
    induction rows generalizing s with
    | nil => rfl
    | cons r rest ih =>
      simp only [processRows]
      rw [show limitHit (some 0) s.count = false from rfl]
      rw [show limitHit none s.count = false from rfl]
      simp only [Bool.false_eq_true, if_false]
      exact ih _
  · exact processRow_count

/-- C7 counterexample: the row with identifier `"t1"` but no path and no URL
column is skipped outright — a full pass over it performs no download, no
upload, no insert, and counts nothing — although it has an identifier, so
"every row that has at least one of the two is processed" is false. -/
theorem c7_counterexample :
    rowNoUrl.trackId ≠ "" ∧
    processDataset cfgFull wOK "/t" none [rowNoUrl] st0
      = { store := st0, count := 0, downloads := [], uploads := [], sleeps := [] } := by
  constructor
  · decide
  · decide

/-- C7 amended: the pipeline skips a dataset row at the field guard exactly
when the row lacks an identifier OR lacks a resolvable URL (not "both"); a
skipped row changes nothing, and a row with both fields that is not
dedup-skipped and has no pre-existing local file proceeds to a download. -/
theorem c7_guard_characterization :
    (∀ r, guardSkip r = true ↔ (r.trackId = "" ∨ resolveUrl r = "")) ∧
    (∀ c w dir s r, guardSkip r = true → processRow c w dir s r = s) ∧
    (∀ c w dir s r, guardSkip r = false → dupSkip c w s.store.db r = false →
       fsGet s.store.fs (localPathOf dir r) = none →
       (processRow c w dir s r).downloads = s.downloads ++ [resolveUrl r]) := by
  refine ⟨?_, ?_, ?_⟩
  · intro r
    simp [guardSkip]
  · intro c w dir s r hg
    simp [processRow, hg]
  · intro c w dir s r hg hd hf
    cases hdo : (downloadFile w (resolveUrl r) (localPathOf dir r) 3 s.store.fs).ok with
    | true => simp [processRow, hg, hd, hf, hdo, afterDownload_downloads]
    | false => simp [processRow, hg, hd, hf, hdo]

/-- Witness for C7's amended statement: the guard-skipped row leaves the state
untouched, and a complete row triggers exactly one download. -/
theorem c7_guard_witness :
    processRow cfgFull wOK "/t"
        { store := st0, count := 0, downloads := [], uploads := [], sleeps := [] } rowNoUrl
      = { store := st0, count := 0, downloads := [], uploads := [], sleeps := [] } ∧
    (processRow cfgFull wOK "/t"
        { store := st0, count := 0, downloads := [], uploads := [], sleeps := [] }
        (rowA "t1")).downloads = [resolveUrl (rowA "t1")] := by
  constructor
  · exact c7_guard_characterization.2.1 cfgFull wOK "/t" _ rowNoUrl (by decide)
  · have := c7_guard_characterization.2.2 cfgFull wOK "/t"
      { store := st0, count := 0, downloads := [], uploads := [], sleeps := [] }
      (rowA "t1") (by decide) (by decide) rfl
    simpa using this

/-- C9: for a row whose scratch file already exists, the pipeline performs no
download at all and, when credentials are present, uploads exactly the bytes
of the existing local file (which need not match the remote resource). -/
theorem c9_existing_file_short_circuit (c : Config) (w : World) (dir : String)
    (s : RunState) (r : Row) (content : String)
    (hg : guardSkip r = false) (hd : dupSkip c w s.store.db r = false)
    (hf : fsGet s.store.fs (localPathOf dir r) = some content) :
    (processRow c w dir s r).downloads = s.downloads ∧
    (hasCreds c = true →
      (processRow c w dir s r).uploads = s.uploads ++ [(s3KeyOf r, content)]) := by
  constructor
  · simp [processRow, hg, hd, hf, afterDownload_downloads]
  · intro hc
    simp [processRow, afterDownload, hg, hd, hf, hc]

/-- Witness for C9: the scratch directory holds `"stale"` bytes for `t1`, the
remote would serve `"fresh"`; the run downloads nothing and uploads
`"stale"`. -/
theorem c9_existing_file_witness :
    (processRow cfgFull wFresh "/t"
        { store := { fs := [("/t/t1.mp3", "stale")], db := [] }, count := 0,
          downloads := [], uploads := [], sleeps := [] } (rowA "t1")).downloads = [] ∧
    (processRow cfgFull wFresh "/t"
        { store := { fs := [("/t/t1.mp3", "stale")], db := [] }, count := 0,
          downloads := [], uploads := [], sleeps := [] } (rowA "t1")).uploads
      = [("tracks/t1.mp3", "stale")] ∧
    wFresh.attempt (resolveUrl (rowA "t1")) 0 = .ok "fresh" := by
  have := c9_existing_file_short_circuit cfgFull wFresh "/t"
    { store := { fs := [("/t/t1.mp3", "stale")], db := [] }, count := 0,
      downloads := [], uploads := [], sleeps := [] } (rowA "t1") "stale"
    (by decide) (by decide) rfl
  exact ⟨this.1, by simpa using this.2 rfl, rfl⟩

/-- C1 counterexample: two fresh rows, a processing limit of 1 and an empty
catalog.  One run inserts only `t1`; running the pipeline a second time over
the same dataset and store inserts `t2` as well (dedup-skipped rows do not
count toward the limit), so run-twice is not the same set of rows as
run-once. -/
theorem c1_counterexample :
    (processDataset cfgFull wOK "/t" (some 1) [rowA "t1", rowA "t2"]
        (processDataset cfgFull wOK "/t" (some 1) [rowA "t1", rowA "t2"] st0).store).store.db
      ≠ (processDataset cfgFull wOK "/t" (some 1) [rowA "t1", rowA "t2"] st0).store.db := by
  decide

/-- C2 counterexample: with credentials present, a row whose every download
attempt fails after a partial write leaves `"partial"` bytes at the row's
scratch path after the pipeline pass finishes — the cleanup invariant does
not hold for failed downloads. -/
theorem c2_counterexample :
    fsGet (processDataset cfgFull wPart "/t" none [rowA "t1"] st0).store.fs "/t/t1.mp3"
      = some "partial" := by
  decide

/-- C3 counterexample: the upload of `t1` fails, yet after the pass the local
copy is gone — cleanup runs regardless of the upload outcome (it sits outside
the `if final_url:` block), so "the local copy is not deleted" is false. -/
theorem c3_counterexample :
    wUpFail.uploadOk "tracks/t1.mp3" = false ∧
    (processDataset cfgFull wUpFail "/t" none [rowA "t1"] st0).uploads
      = [("tracks/t1.mp3", "bytes")] ∧
    fsGet (processDataset cfgFull wUpFail "/t" none [rowA "t1"] st0).store.fs "/t/t1.mp3"
      = none := by
  refine ⟨rfl, by decide, by decide⟩

/-- A catalog with one pending track, as the worker sees it. -/
def wstPending : WState :=
  { db := [{ id := "t1", title := "Track t1", artist := "Unknown",
             audio_url := "http://e/b/tracks/t1.mp3" }],
    tmp := [], iter := 0 }

theorem downloadAudio_fst (ww : WWorld) (url : Option String) (name : String) (tmp : FS) :
    (downloadAudio ww url name tmp).1 = none ∨ (downloadAudio ww url name tmp).1 = some name := by
  unfold downloadAudio
  cases url with
  | none => exact Or.inl rfl
  | some u => cases h : ww.dl u <;> simp [h]

/-- C2 amended: the cleanup invariant holds for every row whose scratch file
was obtained (pre-existing or downloaded) when credentials are present — the
file is deleted whatever the upload and catalog outcomes — and for every
worker entry whose download produced a temp file, which is deleted whatever
the embedding and commit outcomes.  (A failed download can leave a partial
scratch file, and the no-credentials path deliberately retains the file.) -/
theorem c2_scratch_cleanup :
    (∀ c w dir s r, hasCreds c = true → guardSkip r = false →
       dupSkip c w s.store.db r = false →
       ((fsGet s.store.fs (localPathOf dir r)).isSome = true ∨
        (downloadFile w (resolveUrl r) (localPathOf dir r) 3 s.store.fs).ok = true) →
       fsGet (processRow c w dir s r).store.fs (localPathOf dir r) = none) ∧
    (∀ b ww (s : WState) (track : Entry) p,
       s.db.find? (fun t => t.embedding.isNone) = some track →
       (downloadAudio ww (getPresignedUrl b ww track.audio_url) (tmpName s.iter) s.tmp).1
         = some p →
       fsGet (workerStep b ww s).tmp p = none) := by
  constructor
  · intro c w dir s r hc hg hd hdl
    cases hf : fsGet s.store.fs (localPathOf dir r) with
    | some content =>
      simp [processRow, afterDownload, hg, hd, hf, hc, fsGet_fsDel]
    | none =>
      rcases hdl with hdl | hdl
      · rw [hf] at hdl
        exact Bool.noConfusion hdl
      · simp [processRow, afterDownload, hg, hd, hf, hdl, hc, fsGet_fsDel]
  · intro b ww s track p hfind hda
    unfold workerStep
    rw [hfind]
    rcases hpair : downloadAudio ww (getPresignedUrl b ww track.audio_url) (tmpName s.iter) s.tmp
      with ⟨op, tmp2⟩
    rw [hpair] at hda
    simp only at hda
    subst hda
    simp only [hpair]
    cases he : ww.embed ((fsGet tmp2 p).getD "") with
    | none => simp [fsGet_fsDel]
    | some v =>
      simp only [he]
      split <;> simp [fsGet_fsDel]

/-- Witness for C2's amended statement: a fully-credentialled run deletes the
scratch file of a successfully downloaded row, and one worker iteration
deletes its temp file after a successful download. -/
theorem c2_scratch_cleanup_witness :
    fsGet (processRow cfgFull wOK "/t"
        { store := st0, count := 0, downloads := [], uploads := [], sleeps := [] }
        (rowA "t1")).store.fs (localPathOf "/t" (rowA "t1")) = none ∧
    fsGet (workerStep "b" wwOK wstPending).tmp (tmpName 0) = none := by
  constructor
  · exact c2_scratch_cleanup.1 cfgFull wOK "/t" _ (rowA "t1") rfl (by decide) (by decide)
      (Or.inr rfl)
  · exact c2_scratch_cleanup.2 "b" wwOK wstPending _ (tmpName 0) rfl rfl

/-- C3 amended: when the blob upload of a row fails (with credentials
present), the pipeline still deletes the local copy — cleanup runs regardless
of upload outcome — and inserts nothing for the row; the local copy is
retained only on the no-credentials path. -/
theorem c3_upload_failure_cleanup (c : Config) (w : World) (dir : String)
    (s : RunState) (r : Row)
    (hc : hasCreds c = true) (hg : guardSkip r = false)
    (hd : dupSkip c w s.store.db r = false)
    (hu : w.uploadOk (s3KeyOf r) = false)
    (hdl : (fsGet s.store.fs (localPathOf dir r)).isSome = true ∨
           (downloadFile w (resolveUrl r) (localPathOf dir r) 3 s.store.fs).ok = true) :
    fsGet (processRow c w dir s r).store.fs (localPathOf dir r) = none ∧
    (processRow c w dir s r).store.db = s.store.db := by
  cases hf : fsGet s.store.fs (localPathOf dir r) with
  | some content =>
    constructor
    · simp [processRow, afterDownload, hg, hd, hf, hc, fsGet_fsDel]
    · simp [processRow, afterDownload, hg, hd, hf, hc, hu]
  | none =>
    rcases hdl with hdl | hdl
    · rw [hf] at hdl
      exact Bool.noConfusion hdl
    · constructor
      · simp [processRow, afterDownload, hg, hd, hf, hdl, hc, fsGet_fsDel]
      · simp [processRow, afterDownload, hg, hd, hf, hdl, hc, hu]

/-- Witness for C3's amended statement: upload of `t1` fails, the scratch
file is gone and the catalog is unchanged. -/
theorem c3_upload_failure_cleanup_witness :
    fsGet (processRow cfgFull wUpFail "/t"
        { store := st0, count := 0, downloads := [], uploads := [], sleeps := [] }
        (rowA "t1")).store.fs (localPathOf "/t" (rowA "t1")) = none ∧
    (processRow cfgFull wUpFail "/t"
        { store := st0, count := 0, downloads := [], uploads := [], sleeps := [] }
        (rowA "t1")).store.db = [] := by
  exact c3_upload_failure_cleanup cfgFull wUpFail "/t" _ (rowA "t1")
    rfl (by decide) (by decide) rfl (Or.inr rfl)

/-! ### Catalog-evolution lemmas for the ingestion pipeline -/

theorem afterDownload_db (c : Config) (w : World) (dir : String) (r : Row) (s : RunState) :
    (afterDownload c w dir r s).store.db = s.store.db ∨
    ∃ e : Entry, dbHas s.store.db e.id = false ∧ e.embedding = none ∧
      (afterDownload c w dir r s).store.db = s.store.db ++ [e] := by
  unfold afterDownload
  by_cases hc : hasCreds c = true
  · simp only [hc, if_true]
    by_cases hcond : (w.uploadOk (s3KeyOf r) && c.dbAvailable) = true
    · simp only [hcond, if_true]
      unfold dbInsert
      by_cases hfail :
          (w.insertFails r.trackId || dbHas s.store.db r.trackId) = true
      · left
        simp only [hfail, if_true]
      · have hfail' := Bool.eq_false_iff.mpr hfail
        have hnothere : dbHas s.store.db r.trackId = false := by
          rcases Bool.or_eq_false_iff.mp hfail' with ⟨_, h2⟩
          exact h2
        right
        refine ⟨{ id := r.trackId, title := "Track " ++ r.trackId, artist := r.artistId,
                  tags := [], audio_url := uploadRef c (s3KeyOf r) }, hnothere, rfl, ?_⟩
        simp only [hfail', Bool.false_eq_true, if_false]
    · have hcond' := Bool.eq_false_iff.mpr hcond
      left
      simp only [hcond', Bool.false_eq_true, if_false]
  · have hc' := Bool.eq_false_iff.mpr hc
    left
    simp only [hc', Bool.false_eq_true, if_false]

theorem processRow_db (c : Config) (w : World) (dir : String) (s : RunState) (r : Row) :
    (processRow c w dir s r).store.db = s.store.db ∨
    ∃ e : Entry, dbHas s.store.db e.id = false ∧ e.embedding = none ∧
      (processRow c w dir s r).store.db = s.store.db ++ [e] := by
  by_cases hg : guardSkip r = true
  · left
    simp [processRow, hg]
  · have hg' := Bool.eq_false_iff.mpr hg
    by_cases hd : dupSkip c w s.store.db r = true
    · left
      simp [processRow, hg', hd]
    · have hd' := Bool.eq_false_iff.mpr hd
      cases hf : fsGet s.store.fs (localPathOf dir r) with
      | some content =>
        have h := afterDownload_db c w dir r s
        simpa [processRow, hg', hd', hf] using h
      | none =>
        cases hdo : (downloadFile w (resolveUrl r) (localPathOf dir r) 3 s.store.fs).ok with
        | true =>
          have h := afterDownload_db c w dir r
            (RunState.mk
              (Store.mk (downloadFile w (resolveUrl r) (localPathOf dir r) 3 s.store.fs).fs
                s.store.db)
              s.count (s.downloads ++ [resolveUrl r]) s.uploads
              (s.sleeps ++ (downloadFile w (resolveUrl r) (localPathOf dir r) 3 s.store.fs).sleeps))
          simpa [processRow, hg', hd', hf, hdo] using h
        | false =>
          left
          simp [processRow, hg', hd', hf, hdo]

theorem dbHas_false_not_mem {db : DB} {i : String} (h : dbHas db i = false) :
    i ∉ db.map Entry.id := by
  intro hm
  rcases List.mem_map.mp hm with ⟨t, ht, hid⟩
  have htrue : dbHas db i = true := by
    unfold dbHas
    rw [List.any_eq_true]
    exact ⟨t, ht, beq_iff_eq.mpr hid⟩
  rw [h] at htrue
  exact Bool.noConfusion htrue

theorem nodup_append_fresh {db : DB} {e : Entry} (h : dbHas db e.id = false)
    (hn : (db.map Entry.id).Nodup) : ((db ++ [e]).map Entry.id).Nodup := by
  rw [List.map_append]
  rw [List.nodup_append]
  refine ⟨hn, List.nodup_singleton _, ?_⟩
  intro a ha hb
  simp only [List.map_cons, List.map_nil, List.mem_singleton] at hb
  subst hb
  exact dbHas_false_not_mem h ha

theorem dbHas_append_left (db l : DB) (i : String) (h : dbHas db i = true) :
    dbHas (db ++ l) i = true := by
  unfold dbHas at h ⊢
  rw [List.any_append, h]
  rfl

theorem dbFind_append_of_has : ∀ (db l : DB) (i : String), dbHas db i = true →
    dbFind (db ++ l) i = dbFind db i := by
  intro db
  induction db with
  | nil =>
    intro l i h
    exact Bool.noConfusion h
  | cons t rest ih =>
    intro l i h
    unfold dbFind
    cases ht : (t.id == i) with
    | true =>
      simp [List.find?_cons, ht]
    | false =>
      have hrest : dbHas rest i = true := by
        unfold dbHas at h ⊢
        rw [List.any_cons, ht] at h
        simpa using h
      simp only [List.cons_append, List.find?_cons, ht]
      exact ih l i hrest

theorem processRows_db_inv (c : Config) (w : World) (dir : String) (lim : Option Nat) :
    ∀ (rows : List Row) (s : RunState),
    ((s.store.db.map Entry.id).Nodup →
      (((processRows c w dir lim rows s).store.db).map Entry.id).Nodup) ∧
    (∀ i, dbHas s.store.db i = true →
      dbHas ((processRows c w dir lim rows s).store.db) i = true ∧
      dbFind ((processRows c w dir lim rows s).store.db) i = dbFind s.store.db i) := by
  intro rows
  induction rows with
  | nil =>
    intro s
    exact ⟨fun h => h, fun i h => ⟨h, rfl⟩⟩
  | cons r rest ih =>
    intro s
    by_cases hl : limitHit lim s.count = true
    · simp only [processRows, hl, if_true]
      exact ⟨fun h => h, fun i h => ⟨h, trivial⟩⟩
    · have hl' := Bool.eq_false_iff.mpr hl
      simp only [processRows, hl', Bool.false_eq_true, if_false]
      obtain ⟨ihnodup, ihfind⟩ := ih (processRow c w dir s r)
      rcases processRow_db c w dir s r with hsame | ⟨e, hfresh, _, happ⟩
      · constructor
        · intro hn
          exact ihnodup (by rw [hsame]; exact hn)
        · intro i h
          obtain ⟨ha, hf⟩ := ihfind i (by rw [hsame]; exact h)
          exact ⟨ha, by rw [hf, hsame]⟩
      · constructor
        · intro hn
          exact ihnodup (by rw [happ]; exact nodup_append_fresh hfresh hn)
        · intro i h
          obtain ⟨ha, hf⟩ := ihfind i (by rw [happ]; exact dbHas_append_left _ _ _ h)
          refine ⟨ha, ?_⟩
          rw [hf, happ, dbFind_append_of_has _ _ _ h]

/-- C1 amended: ids of persisted entries stay pairwise distinct across a
pipeline pass, and for every id already present in the Catalog Store the
stored entry is unchanged by the pass (no second insert for that id).  The
stronger phrasing "run-twice equals run-once" fails (see the counterexample):
a processing limit, or a partial file left by a failed download, lets a
second run insert additional rows. -/
theorem c1_no_reinsert (c : Config) (w : World) (dir : String) (lim : Option Nat)
    (rows : List Row) (st : Store) :
    ((st.db.map Entry.id).Nodup →
      (((processDataset c w dir lim rows st).store.db).map Entry.id).Nodup) ∧
    (∀ i, dbHas st.db i = true →
      dbFind ((processDataset c w dir lim rows st).store.db) i = dbFind st.db i) := by
  have h := processRows_db_inv c w dir lim rows
    { store := st, count := 0, downloads := [], uploads := [], sleeps := [] }
  exact ⟨h.1, fun i hi => (h.2 i hi).2⟩

/-- Witness for C1's amended statement: a store already holding `t1` keeps a
duplicate-free id column and its `t1` entry untouched when the dataset offers
`t1` again. -/
theorem c1_no_reinsert_witness :
    (((processDataset cfgFull wOK "/t" none [rowA "t1"]
        { fs := [],
          db := [{ id := "t1", title := "Track t1", artist := "Unknown",
                   audio_url := "http://e/b/tracks/t1.mp3" }] }).store.db).map
        Entry.id).Nodup ∧
    dbFind ((processDataset cfgFull wOK "/t" none [rowA "t1"]
        { fs := [],
          db := [{ id := "t1", title := "Track t1", artist := "Unknown",
                   audio_url := "http://e/b/tracks/t1.mp3" }] }).store.db) "t1"
      = some { id := "t1", title := "Track t1", artist := "Unknown",
               audio_url := "http://e/b/tracks/t1.mp3" } := by
  have h := c1_no_reinsert cfgFull wOK "/t" none [rowA "t1"]
    { fs := [],
      db := [{ id := "t1", title := "Track t1", artist := "Unknown",
               audio_url := "http://e/b/tracks/t1.mp3" }] }
  refine ⟨h.1 (by decide), ?_⟩
  rw [h.2 "t1" (by decide)]
  rfl

/-! ### Embedding-evolution lemmas -/

theorem processRows_db_ext (c : Config) (w : World) (dir : String) (lim : Option Nat) :
    ∀ (rows : List Row) (s : RunState), ∃ ext,
      (processRows c w dir lim rows s).store.db = s.store.db ++ ext ∧
      ∀ e ∈ ext, e.embedding = none := by
  intro rows
  induction rows with
  | nil =>
    intro s
    exact ⟨[], by simp [processRows], by simp⟩
  | cons r rest ih =>
    intro s
    by_cases hl : limitHit lim s.count = true
    · refine ⟨[], ?_, by simp⟩
      simp [processRows, hl]
    · have hl' := Bool.eq_false_iff.mpr hl
      simp only [processRows, hl', Bool.false_eq_true, if_false]
      obtain ⟨ext, he, hn⟩ := ih (processRow c w dir s r)
      rcases processRow_db c w dir s r with hsame | ⟨e, _, hemb, happ⟩
      · exact ⟨ext, by rw [he, hsame], hn⟩
      · refine ⟨e :: ext, ?_, ?_⟩
        · rw [he, happ]
          simp
        · intro x hx
          rcases List.mem_cons.mp hx with hx | hx
          · rw [hx]
            exact hemb
          · exact hn x hx

theorem workerStep_db (b : String) (ww : WWorld) (s : WState) :
    (workerStep b ww s).db = s.db ∨
    ∃ id v, (v : List Int).length = 512 ∧
      (workerStep b ww s).db = dbSetEmbedding s.db id v := by
  unfold workerStep
  cases hf : s.db.find? (fun t => t.embedding.isNone) with
  | none => exact Or.inl rfl
  | some track =>
    rcases hpair : downloadAudio ww (getPresignedUrl b ww track.audio_url) (tmpName s.iter) s.tmp
      with ⟨op, tmp2⟩
    simp only [hpair]
    cases op with
    | none => exact Or.inl rfl
    | some p =>
      cases he : ww.embed ((fsGet tmp2 p).getD "") with
      | none =>
        simp only [he]
        exact Or.inl trivial
      | some v =>
        simp only [he]
        by_cases hv : (v != []) = true
        · rw [if_pos hv]
          show commitEmbedding ww s.db track.id v = s.db ∨ _
          unfold commitEmbedding
          by_cases hcommit : (v.length == 512 && !(ww.commitFails track.id)) = true
          · right
            refine ⟨track.id, v, ?_, ?_⟩
            · rcases (Bool.and_eq_true _ _).mp hcommit with ⟨h1, _⟩
              exact beq_iff_eq.mp h1
            · rw [if_pos hcommit]
          · left
            rw [if_neg hcommit]
        · rw [if_neg hv]
          exact Or.inl rfl

theorem mem_dbSetEmbedding_of_mem (db : DB) (id : String) (v : List Int) (t : Entry)
    (h : t ∈ db) :
    ∃ t', t' ∈ dbSetEmbedding db id v ∧ t'.id = t.id ∧
      (t'.embedding = t.embedding ∨ t'.embedding = some v) := by
  refine ⟨if t.id == id then { t with embedding := some v } else t, ?_, ?_, ?_⟩
  · exact List.mem_map_of_mem _ h
  · split <;> rfl
  · split
    · exact Or.inr rfl
    · exact Or.inl rfl

theorem mem_dbSetEmbedding_inv (db : DB) (id : String) (v : List Int) (t' : Entry)
    (h : t' ∈ dbSetEmbedding db id v) :
    ∃ t, t ∈ db ∧ (t'.embedding = t.embedding ∨ t'.embedding = some v) := by
  rcases List.mem_map.mp h with ⟨t, ht, heq⟩
  refine ⟨t, ht, ?_⟩
  rw [← heq]
  by_cases hid : (t.id == id) = true
  · rw [if_pos hid]
    exact Or.inr rfl
  · rw [if_neg hid]
    exact Or.inl rfl

theorem workerStep_mono (b : String) (ww : WWorld) (s : WState) :
    ∀ t ∈ s.db, t.embedding ≠ none →
      ∃ t', t' ∈ (workerStep b ww s).db ∧ t'.id = t.id ∧ t'.embedding ≠ none := by
  intro t ht hne
  rcases workerStep_db b ww s with hsame | ⟨id, v, _, hset⟩
  · exact ⟨t, by rw [hsame]; exact ht, rfl, hne⟩
  · obtain ⟨t', hmem, hid, hemb⟩ := mem_dbSetEmbedding_of_mem s.db id v t ht
    refine ⟨t', by rw [hset]; exact hmem, hid, ?_⟩
    rcases hemb with h1 | h1
    · rw [h1]
      exact hne
    · rw [h1]
      exact Option.noConfusion

theorem workerStep_dim (b : String) (ww : WWorld) (s : WState) (h : embDimOk s.db) :
    embDimOk (workerStep b ww s).db := by
  rcases workerStep_db b ww s with hsame | ⟨id, v, hlen, hset⟩
  · rw [hsame]
    exact h
  · rw [hset]
    intro t' ht' u hu
    obtain ⟨t, ht, hemb⟩ := mem_dbSetEmbedding_inv s.db id v t' ht'
    rcases hemb with h1 | h1
    · exact h t ht u (by rw [← h1]; exact hu)
    · rw [h1] at hu
      rw [← Option.some.inj hu]
      exact hlen

/-- C6: the only embedding transition is null → vector.  Ingestion never
mutates an existing entry (a pass appends entries, all with null embedding),
the worker never replaces a non-null embedding with null over any number of
iterations, and — since the `Vector(512)` column rejects other lengths at
commit — the length-512 invariant of persisted embeddings is preserved by
both components. -/
theorem c6_embedding_monotone :
    (∀ c w dir lim rows st, ∃ ext,
       (processDataset c w dir lim rows st).store.db = st.db ++ ext ∧
       ∀ e ∈ ext, e.embedding = none) ∧
    (∀ b ww n (s : WState), ∀ t ∈ s.db, t.embedding ≠ none →
       ∃ t', t' ∈ ((workerStep b ww)^[n] s).db ∧ t'.id = t.id ∧ t'.embedding ≠ none) ∧
    (∀ c w dir lim rows st, embDimOk st.db →
       embDimOk (processDataset c w dir lim rows st).store.db) ∧
    (∀ b ww n (s : WState), embDimOk s.db → embDimOk ((workerStep b ww)^[n] s).db) := by
  have hiter_mono : ∀ b ww n (s : WState), ∀ t ∈ s.db, t.embedding ≠ none →
      ∃ t', t' ∈ ((workerStep b ww)^[n] s).db ∧ t'.id = t.id ∧ t'.embedding ≠ none := by
    intro b ww n
    induction n with
    | zero => intro s t ht hne; exact ⟨t, ht, rfl, hne⟩
    | succ k ih =>
      intro s t ht hne
      obtain ⟨t', h1, h2, h3⟩ := workerStep_mono b ww s t ht hne
      obtain ⟨t'', h4, h5, h6⟩ := ih (workerStep b ww s) t' h1 h3
      rw [Function.iterate_succ_apply]
      exact ⟨t'', h4, by rw [h5, h2], h6⟩
  refine ⟨?_, hiter_mono, ?_, ?_⟩
  · intro c w dir lim rows st
    exact processRows_db_ext c w dir lim rows
      { store := st, count := 0, downloads := [], uploads := [], sleeps := [] }
  · intro c w dir lim rows st hdim
    obtain ⟨ext, he, hn⟩ := processRows_db_ext c w dir lim rows
      { store := st, count := 0, downloads := [], uploads := [], sleeps := [] }
    unfold processDataset
    rw [he]
    intro t ht v hv
    rcases List.mem_append.mp ht with ht | ht
    · exact hdim t ht v hv
    · rw [hn t ht] at hv
      exact Option.noConfusion hv
  · intro b ww n
    induction n with
    | zero => intro s h; exact h
    | succ k ih =>
      intro s h
      rw [Function.iterate_succ_apply]
      exact ih (workerStep b ww s) (workerStep_dim b ww s h)

/-- Witness for C6: a catalog holding one embedded track and one pending track
keeps the embedded one non-null through a worker iteration, and the length-512
invariant holds after ingestion over an empty store and after one worker
step. -/
theorem c6_embedding_monotone_witness :
    (∃ t', t' ∈ ((workerStep "b" wwOK)^[1]
        { db := [{ id := "t0", title := "T0", artist := "A",
                   audio_url := "http://e/b/tracks/t0.mp3",
                   embedding := some (List.replicate 512 0) },
                 { id := "t1", title := "T1", artist := "A",
                   audio_url := "http://e/b/tracks/t1.mp3" }],
          tmp := [], iter := 0 } : WState).db ∧ t'.id = "t0" ∧ t'.embedding ≠ none) ∧
    embDimOk (processDataset cfgFull wOK "/t" none [rowA "t1"] st0).store.db ∧
    embDimOk ((workerStep "b" wwOK)^[1] wstPending).db := by
  refine ⟨?_, ?_, ?_⟩
  · have := c6_embedding_monotone.2.1 "b" wwOK 1
      { db := [{ id := "t0", title := "T0", artist := "A",
                 audio_url := "http://e/b/tracks/t0.mp3",
                 embedding := some (List.replicate 512 0) },
               { id := "t1", title := "T1", artist := "A",
                 audio_url := "http://e/b/tracks/t1.mp3" }],
        tmp := [], iter := 0 }
      { id := "t0", title := "T0", artist := "A",
        audio_url := "http://e/b/tracks/t0.mp3",
        embedding := some (List.replicate 512 0) }
      (List.mem_cons_self _ _) (fun h => Option.noConfusion h)
    exact this
  · apply c6_embedding_monotone.2.2.1 cfgFull wOK "/t" none [rowA "t1"] st0
    intro t ht v hv
    simp [st0] at ht
  · apply c6_embedding_monotone.2.2.2 "b" wwOK 1 wstPending
    intro t ht v hv
    simp [wstPending] at ht
    rw [ht] at hv
    exact Option.noConfusion hv

/-! ### String lemmas for reference parsing (C5) -/

theorem isPrefixL_self_append : ∀ (l r : List Char), isPrefixL l (l ++ r) = true := by
  intro l
  induction l with
  | nil => intro r; rfl
  | cons c t ih =>
    intro r
    show (c == c && isPrefixL t (t ++ r)) = true
    rw [ih r]
    simp

theorem dropLenAppend : ∀ (l r : List Char), List.drop l.length (l ++ r) = r := by
  intro l
  induction l with
  | nil => intro r; rfl
  | cons c t ih =>
    intro r
    show List.drop (t.length + 1) (c :: (t ++ r)) = r
    rw [List.drop_succ_cons]
    exact ih r

theorem dropLenAdd : ∀ (l r : List Char) (q : Nat),
    List.drop (l.length + q) (l ++ r) = List.drop q r := by
  intro l
  induction l with
  | nil =>
    intro r q
    simp
  | cons c t ih =>
    intro r q
    show List.drop (t.length + 1 + q) (c :: (t ++ r)) = _
    rw [show t.length + 1 + q = (t.length + q) + 1 from by omega, List.drop_succ_cons]
    exact ih r q

theorem occursAt_cons (sep : List Char) (x : Char) (s : List Char) (p : Nat) :
    occursAt sep (x :: s) (p + 1) = occursAt sep s p := rfl

theorem occursAt_past (sep s : List Char) (p : Nat) (hsep : sep ≠ [])
    (hp : s.length ≤ p) : occursAt sep s p = false := by
  unfold occursAt
  rw [List.drop_eq_nil_of_le hp]
  cases sep with
  | nil => exact absurd rfl hsep
  | cons c t => rfl

theorem afterFirst_eq_none : ∀ (sep s : List Char),
    (∀ p, occursAt sep s p = false) → afterFirst sep s = none := by
  intro sep s
  induction s with
  | nil =>
    intro h
    have h0 := h 0
    cases hsep : sep with
    | nil =>
      rw [hsep] at h0
      exact Bool.noConfusion h0
    | cons c t =>
      show afterFirst (c :: t) [] = none
      rfl
  | cons x rest ih =>
    intro h
    have h0 : isPrefixL sep (x :: rest) = false := h 0
    show afterFirst sep (x :: rest) = none
    unfold afterFirst
    rw [h0]
    simp only [Bool.false_eq_true, if_false]
    exact ih (fun p => h (p + 1))

theorem afterFirst_append : ∀ (sep ys xs : List Char), sep ≠ [] →
    (∀ p, p < xs.length → occursAt sep (xs ++ (sep ++ ys)) p = false) →
    afterFirst sep (xs ++ (sep ++ ys)) = some ys := by
  intro sep ys xs
  induction xs with
  | nil =>
    intro hsep _
    cases sep with
    | nil => exact absurd rfl hsep
    | cons c t =>
      show afterFirst (c :: t) ((c :: t) ++ ys) = some ys
      rw [List.cons_append]
      unfold afterFirst
      rw [show isPrefixL (c :: t) (c :: (t ++ ys)) = true from by
        rw [← List.cons_append]
        exact isPrefixL_self_append (c :: t) ys]
      simp only [if_true]
      rw [← List.cons_append, show (c :: t).length = (c :: t).length from rfl,
        dropLenAppend (c :: t) ys]
  | cons x rest ih =>
    intro hsep h
    rw [List.cons_append]
    unfold afterFirst
    rw [show isPrefixL sep (x :: (rest ++ (sep ++ ys))) = false from by
      have h0 := h 0 (by simp)
      rw [List.cons_append] at h0
      exact h0]
    simp only [Bool.false_eq_true, if_false]
    exact ih hsep (fun p hp => by
      have := h (p + 1) (by simpa using Nat.succ_lt_succ hp)
      rw [List.cons_append] at this
      exact this)

theorem parse_core (sep xs ys : List Char) (hsep : sep ≠ [])
    (huniq : ∀ p, occursAt sep (xs ++ (sep ++ ys)) p = true → p = xs.length) :
    afterFirst sep (xs ++ (sep ++ ys)) = some ys ∧
    splitLast sep (xs ++ (sep ++ ys)) = ys := by
  have hclear : ∀ p, p < xs.length → occursAt sep (xs ++ (sep ++ ys)) p = false := by
    intro p hp
    cases hq : occursAt sep (xs ++ (sep ++ ys)) p with
    | false => rfl
    | true =>
      exact absurd (huniq p hq) (by omega)
  have hfirst := afterFirst_append sep ys xs hsep hclear
  have hyclear : ∀ q, occursAt sep ys q = false := by
    intro q
    cases hq : occursAt sep ys q with
    | false => rfl
    | true =>
      exfalso
      have hglobal : occursAt sep (xs ++ (sep ++ ys)) (xs.length + (sep.length + q)) = true := by
        unfold occursAt
        rw [dropLenAdd, dropLenAdd]
        exact hq
      have := huniq _ hglobal
      have hlen : sep.length = 0 := by omega
      exact hsep (List.length_eq_zero.mp hlen)
  have hys := afterFirst_eq_none sep ys hyclear
  refine ⟨hfirst, ?_⟩
  unfold splitLast
  have hlen1 : 1 ≤ (xs ++ (sep ++ ys)).length := by
    rcases sep with _ | ⟨c, t⟩
    · exact absurd rfl hsep
    · simp only [List.length_append, List.length_cons]
      omega
  obtain ⟨m, hm⟩ : ∃ m, (xs ++ (sep ++ ys)).length = m + 1 :=
    ⟨(xs ++ (sep ++ ys)).length - 1, by omega⟩
  rw [hm]
  show splitLastAux sep (m + 1 + 1) (xs ++ (sep ++ ys)) = ys
  unfold splitLastAux
  rw [hfirst]
  show splitLastAux sep (m + 1) ys = ys
  unfold splitLastAux
  rw [hys]

theorem str_data_append (s t : String) : (s ++ t).data = s.data ++ t.data := rfl

theorem strMk_data (s : String) : String.mk s.data = s := rfl

/-- C5 counterexample: uploading under key `"a/b/c"` (bucket `"b"`, endpoint
`"http://e"`) produces the reference `"http://e/b/a/b/c"`; parsing it back
extracts `"c"`, not the original key — the separator `"/b/"` also occurs
inside the key, and Python's `split` keeps only the final piece.  Moreover an
unparseable-by-bucket reference containing `"tracks/"` is NOT returned raw:
the `"tracks/"` fallback extracts a key instead. -/
theorem c5_counterexample :
    parseKey "b" (uploadRef cfgFull "a/b/c") = some "c" ∧
    ("c" : String) ≠ "a/b/c" ∧
    parseKey "b" "x/tracks/y.mp3" = some "tracks/y.mp3" := by
  refine ⟨by decide, by decide, by decide⟩

/-- C5 amended: parsing the reference produced by uploading under a key
recovers the key exactly whenever the separator `"/" ++ bucket ++ "/"` occurs
in the reference only at the endpoint/bucket boundary (in particular it must
not reoccur inside the key); and the raw reference is returned only when the
reference contains neither the separator nor `"tracks/"`. -/
theorem c5_reference_roundtrip :
    (∀ (c : Config) (key : String),
       (∀ p, occursAt ("/" ++ pyStr c.s3Bucket ++ "/").data (uploadRef c key).data p = true →
          p = (pyStr c.s3Endpoint).data.length) →
       parseKey (pyStr c.s3Bucket) (uploadRef c key) = some key) ∧
    (∀ (bucket url : String) (ww : WWorld), url ≠ "" →
       afterFirst ("/" ++ bucket ++ "/").data url.data = none →
       afterFirst "tracks/".data url.data = none →
       parseKey bucket url = none ∧ getPresignedUrl bucket ww url = some url) := by
  constructor
  · intro c key huniq
    have hsep : ("/" ++ pyStr c.s3Bucket ++ "/").data ≠ [] := by
      rw [show ("/" ++ pyStr c.s3Bucket ++ "/").data
          = '/' :: ((pyStr c.s3Bucket).data ++ ['/']) from rfl]
      exact List.cons_ne_nil _ _
    have hdata : (uploadRef c key).data
        = (pyStr c.s3Endpoint).data
          ++ (("/" ++ pyStr c.s3Bucket ++ "/").data ++ key.data) := by
      show (pyStr c.s3Endpoint ++ "/" ++ pyStr c.s3Bucket ++ "/" ++ key).data = _
      rw [str_data_append, str_data_append, str_data_append, str_data_append]
      simp [List.append_assoc]
    rw [hdata] at huniq
    have hcore := parse_core ("/" ++ pyStr c.s3Bucket ++ "/").data
      (pyStr c.s3Endpoint).data key.data hsep huniq
    unfold parseKey
    rw [hdata, hcore.1]
    simp only [Option.isSome_some, if_true]
    rw [hcore.2, strMk_data]
  · intro bucket url ww hne h1 h2
    have hp : parseKey bucket url = none := by
      unfold parseKey
      rw [h1, h2]
      rfl
    refine ⟨hp, ?_⟩
    unfold getPresignedUrl
    rw [show (url == "") = false from beq_eq_false_iff_ne.mpr hne, hp]
    rfl

/-- Environment with endpoint `"e"` and bucket `"b"`, used by the C5 witness. -/
def cfgEB : Config :=
  { s3AccessKey := some "k2", s3SecretKey := some "s2", s3Endpoint := some "e",
    s3Bucket := some "b", dbAvailable := true }

/-- Witness for C5's amended statement: the reference built from endpoint
`"e"`, bucket `"b"` and key `"k"` parses back to `"k"`, and a reference
containing neither separator nor `"tracks/"` resolves to itself. -/
theorem c5_reference_roundtrip_witness :
    parseKey "b" (uploadRef cfgEB "k") = some "k" ∧
    getPresignedUrl "b" wwOK "zzz" = some "zzz" := by
  constructor
  · have h := c5_reference_roundtrip.1 cfgEB "k" (by
      intro p hp
      by_cases hlt : p < 5
      · have hall : ∀ q, q < 5 →
            occursAt ("/" ++ pyStr cfgEB.s3Bucket ++ "/").data (uploadRef cfgEB "k").data q
              = true →
            q = (pyStr cfgEB.s3Endpoint).data.length := by
          decide
        exact hall p hlt hp
      · exfalso
        have hfalse := occursAt_past ("/" ++ pyStr cfgEB.s3Bucket ++ "/").data
          (uploadRef cfgEB "k").data p (by decide) (by
            rw [show ((uploadRef cfgEB "k").data).length = 5 from by decide]
            omega)
        rw [hfalse] at hp
        exact Bool.noConfusion hp)
    exact h
  · exact (c5_reference_roundtrip.2 "b" "zzz" wwOK (by decide) (by decide) (by decide)).2

end AIDJ
